import Mathlib

/-!
Verification of the `cli-timeedit` schedule tool.

This file is a shallow embedding of the core of `cli-timeedit.py`:
the datetime handling (`dateify` with its hard-coded +1 hour correction),
the iCalendar feed parser (`parse_ics`), the ISO-week/weekday bucketer
(`events_of_day` / `parse_week`) and the time-grid layout engine of
`print_schedule`.  Python `datetime` values are modelled by the record
`PyDateTime` together with the proleptic-Gregorian ordinal arithmetic that
CPython's `datetime` module uses; Python exceptions are modelled by
`Except`; the temporary raw file that `parse_ics` deletes is modelled as
an explicit piece of state.
-/

/-- Model of a Python `datetime` value at second precision, as produced by
`datetime.strptime(raw, '%Y%m%dT%H%M%SZ')`. -/
structure PyDateTime where
  year : Nat
  month : Nat
  day : Nat
  hour : Nat
  minute : Nat
  second : Nat
deriving DecidableEq, Repr

/-- Gregorian leap-year test, as in CPython `datetime._is_leap`. -/
def isLeap (y : Nat) : Bool :=
  (y % 4 == 0 && y % 100 != 0) || y % 400 == 0

/-- Days in a month of a given year, as in CPython `datetime._days_in_month`. -/
def daysInMonth (y m : Nat) : Nat :=
  match m with
  | 1 => 31
  | 2 => if isLeap y then 29 else 28
  | 3 => 31
  | 4 => 30
  | 5 => 31
  | 6 => 30
  | 7 => 31
  | 8 => 31
  | 9 => 30
  | 10 => 31
  | 11 => 30
  | 12 => 31
  | _ => 0

/-- Days between the start of the year and the start of month `m`
(CPython `datetime._days_before_month`). -/
def daysBeforeMonth (y : Nat) : Nat → Nat
  | 0 => 0
  | 1 => 0
  | m + 1 => daysBeforeMonth y m + daysInMonth y m

/-- Days before January 1st of year `y` in the proleptic Gregorian calendar
(CPython `datetime._days_before_year`). -/
def daysBeforeYear (y : Nat) : Nat :=
  365 * (y - 1) + (y - 1) / 4 - (y - 1) / 100 + (y - 1) / 400

/-- Proleptic Gregorian ordinal of a date, with `0001-01-01` having ordinal 1
(CPython `datetime.toordinal`). -/
def ymd2ord (y m d : Nat) : Nat :=
  daysBeforeYear y + daysBeforeMonth y m + d

/-- Absolute timestamp in seconds denoted by a datetime value. -/
def toSec (dt : PyDateTime) : Nat :=
  (ymd2ord dt.year dt.month dt.day - 1) * 86400 +
    dt.hour * 3600 + dt.minute * 60 + dt.second

/-- A datetime value that Python's `datetime` constructor accepts (and that
`strptime` on the fixed 16-character format can produce). -/
def ValidDT (dt : PyDateTime) : Prop :=
  1 ≤ dt.year ∧ dt.year ≤ 9999 ∧ 1 ≤ dt.month ∧ dt.month ≤ 12 ∧
    1 ≤ dt.day ∧ dt.day ≤ daysInMonth dt.year dt.month ∧
    dt.hour ≤ 23 ∧ dt.minute ≤ 59 ∧ dt.second ≤ 59

instance (dt : PyDateTime) : Decidable (ValidDT dt) := by
  unfold ValidDT; infer_instance

/-- The final representable hour of Python's calendar (`datetime.max` is
9999-12-31 23:59:59.999999): adding one hour to any datetime in it exceeds
`datetime.max`. -/
def AtMaxBoundary (dt : PyDateTime) : Prop :=
  dt.year = 9999 ∧ dt.month = 12 ∧ dt.day = 31 ∧ dt.hour = 23

instance (dt : PyDateTime) : Decidable (AtMaxBoundary dt) := by
  unfold AtMaxBoundary; infer_instance

/-- Adding `timedelta(hours=1)` to a Python datetime: the field-normalised
result of moving one hour forward, rolling over day, month and year as the
Gregorian calendar requires.  Past `datetime.max` (adding an hour within
9999-12-31 23:xx:xx) Python raises `OverflowError`, modelled as `none`. -/
def addHour (dt : PyDateTime) : Option PyDateTime :=
  if dt.hour + 1 ≤ 23 then
    some { dt with hour := dt.hour + 1 }
  else if dt.day + 1 ≤ daysInMonth dt.year dt.month then
    some { dt with hour := 0, day := dt.day + 1 }
  else if dt.month + 1 ≤ 12 then
    some { dt with hour := 0, day := 1, month := dt.month + 1 }
  else if dt.year + 1 ≤ 9999 then
    some { dt with hour := 0, day := 1, month := 1, year := dt.year + 1 }
  else
    none

/-- ISO weekday of a date, Monday = 1 .. Sunday = 7
(CPython `date.isoweekday`). -/
def isoWeekday (dt : PyDateTime) : Nat :=
  let o := ymd2ord dt.year dt.month dt.day
  if o % 7 = 0 then 7 else o % 7

/-- Ordinal of the Monday starting ISO week 1 of `year`
(CPython `datetime._isoweek1monday`). -/
def isoweek1monday (year : Nat) : Int :=
  let firstday : Int := ymd2ord year 1 1
  let firstweekday := (firstday + 6) % 7
  let week1monday := firstday - firstweekday
  if 3 < firstweekday then week1monday + 7 else week1monday

/-- ISO week number of a date (CPython `date.isocalendar()[1]`),
as used by the source's `get_week`. -/
def isoWeek (dt : PyDateTime) : Nat :=
  let today : Int := ymd2ord dt.year dt.month dt.day
  let week := Int.fdiv (today - isoweek1monday dt.year) 7
  if week < 0 then
    (Int.fdiv (today - isoweek1monday (dt.year - 1)) 7 + 1).toNat
  else if 52 ≤ week then
    if isoweek1monday (dt.year + 1) ≤ today then 1 else (week + 1).toNat
  else
    (week + 1).toNat

/-- Zero-padding to two digits, as `str(n).zfill(2)` and the `%H`/`%M`
directives of `strftime` produce for the values occurring here. -/
def pad2 (n : Nat) : String :=
  if n < 10 then "0" ++ toString n else toString n

/-- The source's `hourify`: `date.strftime('%H:%M')`. -/
def hourify (dt : PyDateTime) : String :=
  pad2 dt.hour ++ ":" ++ pad2 dt.minute

/-- Decimal digit character for a digit value. -/
def digitChar (k : Nat) : Char := Char.ofNat (48 + k)

/-- Parse a decimal digit character. -/
def toDigit? (c : Char) : Option Nat :=
  if '0' ≤ c ∧ c ≤ '9' then some (c.toNat - 48) else none

/-- The source's `dateify`: `datetime.strptime(raw, '%Y%m%dT%H%M%SZ')`
followed by the hard-coded `+ timedelta(hours=1)` correction.  A string not
matching the fixed 16-character zero-padded form of the format, or denoting
an invalid calendar date, raises `ValueError` in Python and yields `none`
here (for in-format values the zero-padded form is the one the feed uses;
CPython's `strptime` would additionally accept some non-padded variants).
A value in the final calendar hour 9999-12-31 23:xx:xx parses but the +1
hour correction then raises `OverflowError`, also modelled as `none`. -/
def dateify (s : List Char) : Option PyDateTime :=
  match s with
  | [y1, y2, y3, y4, mo1, mo2, d1, d2, t, h1, h2, mi1, mi2, s1, s2, z] =>
    if t = 'T' ∧ z = 'Z' then
      match toDigit? y1, toDigit? y2, toDigit? y3, toDigit? y4,
            toDigit? mo1, toDigit? mo2, toDigit? d1, toDigit? d2,
            toDigit? h1, toDigit? h2, toDigit? mi1, toDigit? mi2,
            toDigit? s1, toDigit? s2 with
      | some a1, some a2, some a3, some a4, some b1, some b2,
        some c1, some c2, some e1, some e2, some f1, some f2,
        some g1, some g2 =>
        let year := a1 * 1000 + a2 * 100 + a3 * 10 + a4
        let month := b1 * 10 + b2
        let day := c1 * 10 + c2
        let hour := e1 * 10 + e2
        let minute := f1 * 10 + f2
        let second := g1 * 10 + g2
        if 1 ≤ year ∧ 1 ≤ month ∧ month ≤ 12 ∧ 1 ≤ day ∧
            day ≤ daysInMonth year month ∧ hour ≤ 23 ∧
            minute ≤ 59 ∧ second ≤ 59 then
          addHour ⟨year, month, day, hour, minute, second⟩
        else none
      | _, _, _, _, _, _, _, _, _, _, _, _, _, _ => none
    else none
  | _ => none

/-- Render a datetime in the feed's `YYYYMMDDTHHMMSSZ` format. -/
def formatDT (dt : PyDateTime) : List Char :=
  [digitChar (dt.year / 1000), digitChar (dt.year / 100 % 10),
   digitChar (dt.year / 10 % 10), digitChar (dt.year % 10),
   digitChar (dt.month / 10), digitChar (dt.month % 10),
   digitChar (dt.day / 10), digitChar (dt.day % 10), 'T',
   digitChar (dt.hour / 10), digitChar (dt.hour % 10),
   digitChar (dt.minute / 10), digitChar (dt.minute % 10),
   digitChar (dt.second / 10), digitChar (dt.second % 10), 'Z']

/-- An event record, as the source's `Event` namedtuple. -/
structure Event where
  start : PyDateTime
  «end» : PyDateTime
  course : String
  summary : String
deriving DecidableEq, Repr

/-- `pat` is a prefix of `s`. -/
def leadsWith : List Char → List Char → Bool
  | [], _ => true
  | _ :: _, [] => false
  | p :: ps, c :: cs => p == c && leadsWith ps cs

/-- Index of the first occurrence of `pat` as a contiguous substring of `s`
(what `re.search` uses to locate a literal pattern). -/
def findSub (s pat : List Char) : Option Nat :=
  if leadsWith pat s then some 0
  else
    match s with
    | [] => none
    | _ :: t => (findSub t pat).map (· + 1)

/-- One left-to-right pass of Python's `str.replace`, with explicit fuel
(the fuel `s.length` always suffices for a non-empty pattern). -/
def replaceFuel : Nat → List Char → List Char → List Char → List Char
  | 0, s, _, _ => s
  | fuel + 1, s, pat, rep =>
    match s with
    | [] => []
    | c :: t =>
      if leadsWith pat s then rep ++ replaceFuel fuel (s.drop pat.length) pat rep
      else c :: replaceFuel fuel t pat rep

/-- Python `s.replace(pat, rep)` for a non-empty pattern. -/
def pyReplace (s pat rep : List Char) : List Char :=
  replaceFuel s.length s pat rep

/-- Everything up to (not including) the next newline: the `.*` regex
without `DOTALL` applied after a lookbehind. -/
def restOfLine (s : List Char) : List Char :=
  s.takeWhile (fun c => c ≠ '\n')

def beginKey : List Char := "BEGIN:VEVENT\n".toList
def endKey : List Char := "END:VEVENT".toList
def dtstartKey : List Char := "DTSTART:".toList
def dtendKey : List Char := "DTEND:".toList
def summaryKey : List Char := "SUMMARY:".toList
def locationKey : List Char := "LOCATION".toList

/-- Does the lookbehind `(?<=BEGIN:VEVENT\n)` succeed at position `p`? -/
def beginAt (s : List Char) (p : Nat) : Bool :=
  13 ≤ p && leadsWith beginKey (s.drop (p - 13))

/-- First position `≥ pos` at which the block lookbehind succeeds. -/
def findEventStart (s : List Char) : Nat → Nat → Option Nat
  | 0, _ => none
  | fuel + 1, pos =>
    if beginAt s pos then some pos
    else if s.length ≤ pos then none
    else findEventStart s fuel (pos + 1)

/-- Scanning loop of
`re.findall('(?<=BEGIN:VEVENT\n).*?(?=END:VEVENT)', data, flags=re.DOTALL)`:
each match starts right after a `BEGIN:VEVENT` line and lazily extends to the
next `END:VEVENT`; scanning resumes at the end of the match (one further on an
empty match). -/
def extractFuel (s : List Char) : Nat → Nat → List (List Char)
  | 0, _ => []
  | fuel + 1, pos =>
    match findEventStart s (s.length + 1) pos with
    | none => []
    | some p =>
      match findSub (s.drop p) endKey with
      | none => []
      | some off =>
        ((s.drop p).take off) ::
          extractFuel s fuel (if off = 0 then p + 1 else p + off)

/-- All raw `VEVENT` blocks of a feed, in order. -/
def extractBlocks (s : List Char) : List (List Char) :=
  extractFuel s (s.length + 1) 0

/-- The Python exceptions that the parse/bucket code can raise. -/
inductive PyErr where
  | attributeError
  | valueError
  | fileNotFoundError
  | keyError
deriving DecidableEq, Repr

/-- `re.search('(?<=KEY:).*', block).group()`: the rest of the line after the
first occurrence of `key`; `none` models the `AttributeError` raised by
`.group()` on a failed search. -/
def getField (block key : List Char) : Option (List Char) :=
  (findSub block key).map (fun i => restOfLine (block.drop (i + key.length)))

/-- `re.search('(?<=SUMMARY:).*?(?=LOCATION)', block, flags=re.DOTALL)`:
text after the first `SUMMARY:` lazily up to the next `LOCATION`. -/
def summaryRaw (block : List Char) : Option (List Char) :=
  match findSub block summaryKey with
  | none => none
  | some i =>
    let rest := block.drop (i + summaryKey.length)
    match findSub rest locationKey with
    | none => none
    | some q => some (rest.take q)

/-- `course, summary = raw.split('\\', maxsplit=1)`: split at the first
backslash.  With no backslash the split yields a single element and the
unpacking raises `ValueError`, modelled by `none`. -/
def splitCourse (raw : List Char) : Option (List Char × List Char) :=
  match findSub raw ['\\'] with
  | none => none
  | some i => some (raw.take i, raw.drop (i + 1))

/-- `summary.replace('\\', ' - ').replace(',', '').replace('\n ', '')`. -/
def cleanSummary (d : List Char) : List Char :=
  pyReplace (pyReplace (pyReplace d ['\\'] (" - ".toList)) [','] []) ['\n', ' '] []

/-- The per-block body of the source's `parse_ics` loop, with the source's
evaluation order: the three field searches, then the summary split and
normalisation, then the two `dateify` calls. -/
def parseBlock (block : List Char) : Except PyErr Event :=
  match getField block dtstartKey with
  | none => .error .attributeError
  | some startRaw =>
    match getField block dtendKey with
    | none => .error .attributeError
    | some endRaw =>
      match summaryRaw block with
      | none => .error .attributeError
      | some sum =>
        match splitCourse sum with
        | none => .error .valueError
        | some (course, desc) =>
          let cleaned := cleanSummary desc
          match dateify startRaw with
          | none => .error .valueError
          | some ds =>
            match dateify endRaw with
            | none => .error .valueError
            | some de =>
              .ok ⟨ds, de, String.mk course, String.mk cleaned⟩

/-- Parse every block in order; the first exception aborts the loop. -/
def parseAll : List (List Char) → Except PyErr (List Event)
  | [] => .ok []
  | b :: bs =>
    match parseBlock b with
    | .error e => .error e
    | .ok ev =>
      match parseAll bs with
      | .error e => .error e
      | .ok evs => .ok (ev :: evs)

/-- Chronological order on events by start time, the key order used by
`sorted(events, key=lambda e: e.start)`. -/
def eventLe (a b : Event) : Prop :=
  toSec a.start ≤ toSec b.start

instance : DecidableRel eventLe := fun a b => by
  unfold eventLe; infer_instance

instance : IsTotal Event eventLe :=
  ⟨fun a b => Nat.le_total (toSec a.start) (toSec b.start)⟩

instance : IsTrans Event eventLe :=
  ⟨fun _ _ _ hab hbc => Nat.le_trans hab hbc⟩

/-- The stable ascending sort by start time performed at the end of
`parse_ics` (`sorted` with key `e.start`). -/
def sortEvents (l : List Event) : List Event :=
  List.insertionSort eventLe l

/-- The pure part of `parse_ics`: extract the blocks, parse them in order,
sort the events by start time. -/
def parseEvents (data : String) : Except PyErr (List Event) :=
  match parseAll (extractBlocks data.toList) with
  | .error e => .error e
  | .ok evs => .ok (sortEvents evs)

/-- The source's `parse_ics`, including its effect on the temporary raw
file `RAW_PATH` (modelled as `Option String`: `some` content when the file
exists, `none` when it does not).  With `data = none` the function reads the
raw file first; in every successful run `delete_temp_raw_file` removes the
raw file at the end, raising `FileNotFoundError` when it is already gone;
a parse error aborts before the deletion. -/
def parse_ics (data : Option String) (fs : Option String) :
    Except PyErr (List Event) × Option String :=
  match data with
  | none =>
    match fs with
    | none => (.error .fileNotFoundError, none)
    | some content =>
      match parseEvents content with
      | .error e => (.error e, some content)
      | .ok evs => (.ok evs, none)
  | some text =>
    match parseEvents text with
    | .error e => (.error e, fs)
    | .ok evs =>
      match fs with
      | none => (.error .fileNotFoundError, none)
      | some _ => (.ok evs, none)

/-- The source's `WEEKDAY` dict: ISO weekday number to label, defined only
for Monday..Friday; a lookup outside 1..5 raises `KeyError`. -/
def WEEKDAY (n : Nat) : Option String :=
  if n = 1 then some "Monday"
  else if n = 2 then some "Tuesday"
  else if n = 3 then some "Wednesday"
  else if n = 4 then some "Thursday"
  else if n = 5 then some "Friday"
  else none

/-- `WEEKDAY.values()`, in insertion order. -/
def weekdayLabels : List String :=
  ["Monday", "Tuesday", "Wednesday", "Thursday", "Friday"]

/-- The source's `get_week(event.start)`. -/
def get_week (dt : PyDateTime) : Nat := isoWeek dt

/-- The source's `get_day(event.start)`. -/
def get_day (dt : PyDateTime) : Nat := isoWeekday dt

/-- The source's `events_of_day`: keep the events whose ISO week equals the
target and whose `WEEKDAY`-label equals `day`.  The conjunction
short-circuits, so `WEEKDAY[get_day(...)]` is evaluated only when the week
matches; a weekend event inside the target week makes that lookup raise
`KeyError`. -/
def events_of_day (week : Nat) (day : String) : List Event → Except PyErr (List Event)
  | [] => .ok []
  | e :: rest =>
    if get_week e.start = week then
      match WEEKDAY (get_day e.start) with
      | none => .error .keyError
      | some name =>
        if name = day then
          match events_of_day week day rest with
          | .error err => .error err
          | .ok l => .ok (e :: l)
        else events_of_day week day rest
    else events_of_day week day rest

/-- Helper for `parse_week`: build the buckets label by label. -/
def parseWeekAux (events : List Event) (week : Nat) :
    List String → Except PyErr (List (String × List Event))
  | [] => .ok []
  | d :: ds =>
    match events_of_day week d events with
    | .error e => .error e
    | .ok l =>
      match parseWeekAux events week ds with
      | .error e => .error e
      | .ok rest => .ok ((d, l) :: rest)

/-- The source's `parse_week`: one bucket per weekday label, in the
`WEEKDAY.values()` order Monday..Friday. -/
def parse_week (events : List Event) (week : Nat) :
    Except PyErr (List (String × List Event)) :=
  parseWeekAux events week weekdayLabels

/-- One row of the schedule grid: the time label plus one cell per weekday
column (the `row` dict of `print_schedule`). -/
structure Row where
  time : String
  cells : String → String

/-- The source's `events_at_time` filter: an event is active at `hour` when
`hour >= event.start.hour and hour <= event.end.hour`. -/
def eventsAtTime (events : List Event) (hour : Nat) : List Event :=
  events.filter (fun e => decide (e.start.hour ≤ hour) && decide (hour ≤ e.«end».hour))

/-- The source's `event_start_at`. -/
def event_start_at (e : Event) (hour : Nat) : Bool :=
  e.start.hour * 60 + e.start.minute == hour * 60

/-- The source's `event_end_at`. -/
def event_end_at (e : Event) (hour : Nat) : Bool :=
  e.«end».hour * 60 + e.«end».minute == hour * 60

/-- `f'--{hourify(e.start)}--------\n    {e.course}'`. -/
def startText (e : Event) : String :=
  "--" ++ hourify e.start ++ "--------" ++ "\n    " ++ e.course

/-- `f'--------{hourify(e.end)}--'`. -/
def endText (e : Event) : String :=
  "--------" ++ hourify e.«end» ++ "--"

/-- The cell text computed for one day at one hour by the body of
`print_schedule`'s inner loop: no active event gives a blank, a single
active event gives a start marker, an end marker or a continuation marker,
two or more active events give a start marker for the second event in list
order. -/
def hourCell (curr : List Event) (hour : Nat) : String :=
  match curr with
  | [] => " "
  | [e] =>
    if event_start_at e hour then startText e
    else if event_end_at e hour then endText e
    else "  "
  | _ :: e1 :: _ => startText e1

/-- The error print_schedule can raise: the `rows[r-1]` access out of range. -/
inductive LayoutError where
  | indexError
deriving DecidableEq, Repr

/-- Python list indexing: a non-negative index must be below the length, a
negative index counts from the end. -/
def pyIdx (len : Nat) (i : Int) : Option Nat :=
  if 0 ≤ i then (if i < (len : Int) then some i.toNat else none)
  else (if 0 ≤ (len : Int) + i then some ((len : Int) + i).toNat else none)

/-- Functional update of one day's cell in a row (`row[day] = text`). -/
def setCell (row : Row) (day : String) (text : String) : Row :=
  { row with cells := fun d => if d = day then text else row.cells d }

/-- The retroactive amendment of the two-event case applied to the previous
row: `rows[r-1][day] += '\n\n\n'` then `rows[r-1][day] += f'--------...--'`. -/
def appendEnd (prev : Row) (day : String) (e0 : Event) : Row :=
  { prev with
    cells := fun d =>
      if d = day then prev.cells day ++ "\n\n\n" ++ endText e0
      else prev.cells d }

/-- `rows[r-1][day] += ...` including the Python indexing: `IndexError` when
`rows` is empty at `r = 0`. -/
def amendPrev (rows : List Row) (r : Nat) (day : String) (e0 : Event) :
    Except LayoutError (List Row) :=
  match pyIdx rows.length ((r : Int) - 1) with
  | none => .error .indexError
  | some j =>
    match rows.get? j with
    | none => .error .indexError
    | some prev => .ok (rows.set j (appendEnd prev day e0))

/-- Processing of a single day inside the hour loop of `print_schedule`:
compute the cell text and, in the two-or-more-active-events case, amend the
previous row for this day. -/
def processDay (hour r : Nat) (day : String) (evs : List Event)
    (rows : List Row) (row : Row) : Except LayoutError (List Row × Row) :=
  match eventsAtTime evs hour with
  | e0 :: e1 :: rest =>
    match amendPrev rows r day e0 with
    | .error err => .error err
    | .ok rows2 => .ok (rows2, setCell row day (hourCell (e0 :: e1 :: rest) hour))
  | curr => .ok (rows, setCell row day (hourCell curr hour))

/-- `for day, e in events.items(): ...` over the remaining day buckets. -/
def processDays (hour r : Nat) :
    List (String × List Event) → List Row → Row → Except LayoutError (List Row × Row)
  | [], rows, row => .ok (rows, row)
  | (day, evs) :: rest, rows, row =>
    match processDay hour r day evs rows row with
    | .error e => .error e
    | .ok (rows2, row2) => processDays hour r rest rows2 row2

/-- The fresh row dict created at the top of each hour iteration. -/
def initRow (hour : Nat) : Row :=
  { time := "  " ++ pad2 hour ++ "\n\n\n\n", cells := fun _ => " " }

/-- One iteration of the hour loop: build this hour's row across all days
and append it to the accumulated rows. -/
def layoutHour (weekEvents : List (String × List Event)) (hour r : Nat)
    (rows : List Row) : Except LayoutError (List Row) :=
  match processDays hour r weekEvents rows (initRow hour) with
  | .error e => .error e
  | .ok (rows2, row2) => .ok (rows2 ++ [row2])

/-- The hour loop `for r, hour in enumerate(range(8, 18))`. -/
def layoutHours (weekEvents : List (String × List Event)) :
    List Nat → Nat → List Row → Except LayoutError (List Row)
  | [], _, rows => .ok rows
  | h :: hs, r, rows =>
    match layoutHour weekEvents h r rows with
    | .error e => .error e
    | .ok rows2 => layoutHours weekEvents hs (r + 1) rows2

/-- The grid computation of `print_schedule`: the list of rows handed to the
table renderer (the rendering itself is out of scope). -/
def buildRows (weekEvents : List (String × List Event)) :
    Except LayoutError (List Row) :=
  layoutHours weekEvents (List.range' 8 10) 0 []

/-- Look up the cell of day `d` in row `i` of a computed grid. -/
def gridCell (res : Except LayoutError (List Row)) (i : Nat) (d : String) :
    Option String :=
  match res with
  | .error _ => none
  | .ok rows => (rows.get? i).map (fun row => row.cells d)

theorem digit_round : ∀ k, k < 10 → toDigit? (digitChar k) = some k := by decide

theorem dbm_succ (y m : Nat) (hm : 1 ≤ m) :
    daysBeforeMonth y (m + 1) = daysBeforeMonth y m + daysInMonth y m := by
  match m, hm with
  | Nat.succ k, _ => rfl

theorem isLeap_iff (y : Nat) :
    isLeap y = true ↔ ((y % 4 = 0 ∧ y % 100 ≠ 0) ∨ y % 400 = 0) := by
  simp [isLeap]

set_option maxHeartbeats 1000000 in
theorem dby_succ (y : Nat) (hy : 1 ≤ y) :
    daysBeforeYear (y + 1) = daysBeforeYear y + (if isLeap y then 366 else 365) := by
  obtain ⟨z, rfl⟩ : ∃ z, y = z + 1 := ⟨y - 1, by omega⟩
  have hiff := isLeap_iff (z + 1)
  by_cases hP : ((z + 1) % 4 = 0 ∧ (z + 1) % 100 ≠ 0) ∨ (z + 1) % 400 = 0
  · rw [if_pos (hiff.mpr hP)]
    simp only [daysBeforeYear, Nat.add_sub_cancel]
    omega
  · rw [if_neg (fun h => hP (hiff.mp h))]
    simp only [daysBeforeYear, Nat.add_sub_cancel]
    omega

theorem dbm12 (y : Nat) :
    daysBeforeMonth y 12 + 31 = if isLeap y then 366 else 365 := by
  cases hL : isLeap y <;>
    simp [daysBeforeMonth, daysInMonth, hL]

theorem addHour_at_max (dt : PyDateTime) (hb : AtMaxBoundary dt) :
    addHour dt = none := by
  obtain ⟨y, m, d, hh, mi, ss⟩ := dt
  obtain ⟨hy, hm, hd, hhh⟩ := hb
  dsimp only at hy hm hd hhh
  subst hy
  subst hm
  subst hd
  subst hhh
  rfl

theorem addHour_toSec (dt : PyDateTime) (h : ValidDT dt) (hb : ¬AtMaxBoundary dt) :
    ∃ dt2, addHour dt = some dt2 ∧ toSec dt2 = toSec dt + 3600 := by
  obtain ⟨y, m, d, hh, mi, ss⟩ := dt
  obtain ⟨hy1, hy2, hm1, hm2, hd1, hd2, hh2, hmi2, hss2⟩ := h
  dsimp only at hy1 hy2 hm1 hm2 hd1 hd2 hh2 hmi2 hss2
  simp only [addHour]
  split_ifs with h1 h2 h3 h4
  · refine ⟨_, rfl, ?_⟩
    simp only [toSec, ymd2ord]
    omega
  · refine ⟨_, rfl, ?_⟩
    simp only [toSec, ymd2ord]
    omega
  · refine ⟨_, rfl, ?_⟩
    simp only [toSec, ymd2ord]
    rw [dbm_succ y m hm1]
    omega
  · refine ⟨_, rfl, ?_⟩
    have hm12 : m = 12 := by omega
    subst hm12
    have hdim : daysInMonth y 12 = 31 := rfl
    rw [hdim] at h2 hd2
    have h12 := dbm12 y
    simp only [toSec, ymd2ord]
    rw [dby_succ y hy1]
    have hbm1 : daysBeforeMonth (y + 1) 1 = 0 := rfl
    rw [hbm1]
    by_cases hL : isLeap y
    · rw [if_pos hL] at h12 ⊢
      omega
    · rw [if_neg hL] at h12 ⊢
      omega
  · exfalso
    apply hb
    have hm12 : m = 12 := by omega
    subst hm12
    have hdim : daysInMonth y 12 = 31 := rfl
    rw [hdim] at h2 hd2
    unfold AtMaxBoundary
    dsimp only
    refine ⟨by omega, rfl, by omega, by omega⟩

theorem daysInMonth_le (y m : Nat) : daysInMonth y m ≤ 31 := by
  unfold daysInMonth
  split <;> first
  | omega
  | (split_ifs <;> omega)

theorem dateify_formatDT (dt : PyDateTime) (h : ValidDT dt) :
    dateify (formatDT dt) = addHour dt := by
  obtain ⟨y, m, d, hh, mi, ss⟩ := dt
  obtain ⟨hy1, hy2, hm1, hm2, hd1, hd2, hh2, hmi2, hss2⟩ := h
  dsimp only at hy1 hy2 hm1 hm2 hd1 hd2 hh2 hmi2 hss2
  have hd31 : d ≤ 31 := le_trans hd2 (daysInMonth_le y m)
  have e1 : toDigit? (digitChar (y / 1000)) = some (y / 1000) := digit_round _ (by omega)
  have e2 : toDigit? (digitChar (y / 100 % 10)) = some (y / 100 % 10) := digit_round _ (by omega)
  have e3 : toDigit? (digitChar (y / 10 % 10)) = some (y / 10 % 10) := digit_round _ (by omega)
  have e4 : toDigit? (digitChar (y % 10)) = some (y % 10) := digit_round _ (by omega)
  have e5 : toDigit? (digitChar (m / 10)) = some (m / 10) := digit_round _ (by omega)
  have e6 : toDigit? (digitChar (m % 10)) = some (m % 10) := digit_round _ (by omega)
  have e7 : toDigit? (digitChar (d / 10)) = some (d / 10) := digit_round _ (by omega)
  have e8 : toDigit? (digitChar (d % 10)) = some (d % 10) := digit_round _ (by omega)
  have e9 : toDigit? (digitChar (hh / 10)) = some (hh / 10) := digit_round _ (by omega)
  have e10 : toDigit? (digitChar (hh % 10)) = some (hh % 10) := digit_round _ (by omega)
  have e11 : toDigit? (digitChar (mi / 10)) = some (mi / 10) := digit_round _ (by omega)
  have e12 : toDigit? (digitChar (mi % 10)) = some (mi % 10) := digit_round _ (by omega)
  have e13 : toDigit? (digitChar (ss / 10)) = some (ss / 10) := digit_round _ (by omega)
  have e14 : toDigit? (digitChar (ss % 10)) = some (ss % 10) := digit_round _ (by omega)
  simp only [formatDT, dateify]
  simp only [and_self, if_true]
  simp only [e1, e2, e3, e4, e5, e6, e7, e8, e9, e10, e11, e12, e13, e14]
  have hy' : y / 1000 * 1000 + y / 100 % 10 * 100 + y / 10 % 10 * 10 + y % 10 = y := by omega
  have hm' : m / 10 * 10 + m % 10 = m := by omega
  have hd' : d / 10 * 10 + d % 10 = d := by omega
  have hhh' : hh / 10 * 10 + hh % 10 = hh := by omega
  have hmi' : mi / 10 * 10 + mi % 10 = mi := by omega
  have hss' : ss / 10 * 10 + ss % 10 = ss := by omega
  simp only [hy', hm', hd', hhh', hmi', hss']
  have hcond : 1 ≤ y ∧ 1 ≤ m ∧ m ≤ 12 ∧ 1 ≤ d ∧ d ≤ daysInMonth y m ∧
      hh ≤ 23 ∧ mi ≤ 59 ∧ ss ≤ 59 :=
    ⟨hy1, hm1, hm2, hd1, hd2, hh2, hmi2, hss2⟩
  rw [if_pos hcond]

theorem hourCell_one (e : Event) (hour : Nat) :
    hourCell [e] hour =
      if event_start_at e hour then startText e
      else if event_end_at e hour then endText e
      else "  " := rfl

theorem pyIdx_pos (len r : Nat) (h1 : 1 ≤ r) (h2 : r ≤ len) :
    pyIdx len ((r : Int) - 1) = some (r - 1) := by
  unfold pyIdx
  rw [if_pos (by omega : (0 : Int) ≤ (r : Int) - 1),
    if_pos (by omega : (r : Int) - 1 < (len : Int))]
  congr 1
  omega

theorem get?_is_some_of_lt {α : Type} (l : List α) (n : Nat) (h : n < l.length) :
    ∃ a, l.get? n = some a := by
  cases hg : l.get? n with
  | none => rw [List.get?_eq_none] at hg; omega
  | some a => exact ⟨a, rfl⟩

theorem amendPrev_ok (rows : List Row) (r : Nat) (day : String) (e0 : Event)
    (prev : Row) (h1 : 1 ≤ r) (h2 : r ≤ rows.length)
    (hprev : rows.get? (r - 1) = some prev) :
    amendPrev rows r day e0 = .ok (rows.set (r - 1) (appendEnd prev day e0)) := by
  unfold amendPrev
  simp only [pyIdx_pos rows.length r h1 h2, hprev]

theorem amendPrev_empty (day : String) (e0 : Event) :
    amendPrev [] 0 day e0 = .error .indexError := rfl

theorem processDay_small (hour r : Nat) (day : String) (evs : List Event)
    (rows : List Row) (row : Row) (h : (eventsAtTime evs hour).length ≤ 1) :
    processDay hour r day evs rows row =
      .ok (rows, setCell row day (hourCell (eventsAtTime evs hour) hour)) := by
  rcases hc : eventsAtTime evs hour with _ | ⟨e0, _ | ⟨e1, rest⟩⟩
  · simp only [processDay, hc]
  · simp only [processDay, hc]
  · rw [hc] at h; simp at h

theorem processDay_two (hour r : Nat) (day : String) (evs : List Event)
    (rows : List Row) (row : Row) (e0 e1 : Event) (rest : List Event)
    (prev : Row) (hc : eventsAtTime evs hour = e0 :: e1 :: rest)
    (h1 : 1 ≤ r) (h2 : r ≤ rows.length)
    (hprev : rows.get? (r - 1) = some prev) :
    processDay hour r day evs rows row =
      .ok (rows.set (r - 1) (appendEnd prev day e0), setCell row day (startText e1)) := by
  simp only [processDay, hc]
  rw [amendPrev_ok rows r day e0 prev h1 h2 hprev]
  rfl

theorem processDays_ok_frame (hour r : Nat) (entries : List (String × List Event))
    (rows : List Row) (row : Row) (h1 : 1 ≤ r) (h2 : r ≤ rows.length) :
    ∃ rows2 row2,
      processDays hour r entries rows row = .ok (rows2, row2) ∧
      rows2.length = rows.length ∧
      (∀ d, (∀ p ∈ entries, p.1 ≠ d) →
        row2.cells d = row.cells d ∧
        ∀ i, (rows2.get? i).map (fun x => x.cells d) =
          (rows.get? i).map (fun x => x.cells d)) := by
  induction entries generalizing rows row with
  | nil => exact ⟨rows, row, rfl, rfl, fun d _ => ⟨rfl, fun i => rfl⟩⟩
  | cons p rest ih =>
    obtain ⟨day, evs⟩ := p
    by_cases hlen : (eventsAtTime evs hour).length ≤ 1
    · have hstep := processDay_small hour r day evs rows row hlen
      obtain ⟨rows2, row2, heq, hlen2, hframe⟩ :=
        ih rows (setCell row day (hourCell (eventsAtTime evs hour) hour))
          h2
      refine ⟨rows2, row2, ?_, hlen2, ?_⟩
      · simp only [processDays, hstep]
        exact heq
      · intro d hd
        have hday : day ≠ d := hd (day, evs) (List.mem_cons_self _ _)
        have hrest : ∀ p ∈ rest, p.1 ≠ d := fun p hp => hd p (List.mem_cons_of_mem _ hp)
        obtain ⟨hcell, hview⟩ := hframe d hrest
        refine ⟨?_, hview⟩
        rw [hcell]
        simp only [setCell]
        rw [if_neg (fun hdd => hday hdd.symm)]
    · push_neg at hlen
      rcases hc : eventsAtTime evs hour with _ | ⟨e0, _ | ⟨e1, tail⟩⟩ <;>
        rw [hc] at hlen
      · simp at hlen
      · simp at hlen
      · obtain ⟨prev, hprev⟩ := get?_is_some_of_lt rows (r - 1) (by omega)
        have hstep := processDay_two hour r day evs rows row e0 e1 tail prev hc h1 h2 hprev
        have h2' : r ≤ (rows.set (r - 1) (appendEnd prev day e0)).length := by
          rw [List.length_set]; exact h2
        obtain ⟨rows2, row2, heq, hlen2, hframe⟩ :=
          ih (rows.set (r - 1) (appendEnd prev day e0))
            (setCell row day (startText e1)) h2'
        refine ⟨rows2, row2, ?_, ?_, ?_⟩
        · simp only [processDays, hstep]
          exact heq
        · rw [hlen2, List.length_set]
        · intro d hd
          have hday : day ≠ d := hd (day, evs) (List.mem_cons_self _ _)
          have hrest : ∀ p ∈ rest, p.1 ≠ d := fun p hp => hd p (List.mem_cons_of_mem _ hp)
          obtain ⟨hcell, hview⟩ := hframe d hrest
          constructor
          · rw [hcell]
            simp only [setCell]
            rw [if_neg (fun hdd => hday hdd.symm)]
          · intro i
            rw [hview i]
            by_cases hi : i = r - 1
            · subst hi
              rw [List.get?_set_eq_of_lt _ (by omega), hprev]
              simp only [Option.map_some', appendEnd]
              rw [if_neg (fun hdd => hday hdd.symm)]
            · rw [List.get?_set_ne _ _ (fun hx => hi hx.symm)]

theorem processDays_append (hour r : Nat) (a b : List (String × List Event))
    (rows : List Row) (row : Row) :
    processDays hour r (a ++ b) rows row =
      (match processDays hour r a rows row with
      | .error e => .error e
      | .ok (rows2, row2) => processDays hour r b rows2 row2) := by
  induction a generalizing rows row with
  | nil => rfl
  | cons p rest ih =>
    obtain ⟨day, evs⟩ := p
    simp only [List.cons_append, processDays]
    cases processDay hour r day evs rows row with
    | error e => rfl
    | ok pr =>
      obtain ⟨rows2, row2⟩ := pr
      exact ih rows2 row2

/-- C1: for a day whose event list makes exactly two events active at an hour
`h` in `[9, 17]` (the first ending and the second starting in that slot, the
list ordered ascending by start), the hour-`h` step of the layout renders the
hour-`h` cell of that day as a start marker for the second event (its
formatted start time and course code), and appends an end marker with the
first event's formatted end time onto the same day's already-computed hour
`h - 1` cell. -/
theorem c1_same_slot_transition
    (pre post : List (String × List Event)) (d : String) (evs : List Event)
    (e1 e2 : Event) (h : Nat) (rows : List Row)
    (hh9 : 9 ≤ h) (hh17 : h ≤ 17)
    (hlen : rows.length = h - 8)
    (hact : eventsAtTime evs h = [e1, e2])
    (hend : e1.«end».hour = h) (hendm : e1.«end».minute = 0)
    (hstart : e2.start.hour = h) (hstartm : e2.start.minute = 0)
    (hord : toSec e1.start ≤ toSec e2.start)
    (hpre : ∀ p ∈ pre, p.1 ≠ d) (hpost : ∀ p ∈ post, p.1 ≠ d) :
    ∃ rows2,
      layoutHour (pre ++ (d, evs) :: post) h (h - 8) rows = .ok rows2 ∧
      rows2.length = h - 7 ∧
      (rows2.get? (h - 8)).map (fun row => row.cells d) =
        some ("--" ++ hourify e2.start ++ "--------" ++ "\n    " ++ e2.course) ∧
      (rows2.get? (h - 9)).map (fun row => row.cells d) =
        (rows.get? (h - 9)).map
          (fun row => row.cells d ++ "\n\n\n" ++ ("--------" ++ hourify e1.«end» ++ "--")) := by
  have hr1 : 1 ≤ h - 8 := by omega
  have hr2 : h - 8 ≤ rows.length := by omega
  obtain ⟨rowsA, rowA, heqA, hlenA, hframeA⟩ :=
    processDays_ok_frame h (h - 8) pre rows (initRow h) hr1 hr2
  obtain ⟨prevA, hprevA⟩ :=
    get?_is_some_of_lt rowsA (h - 8 - 1) (by rw [hlenA, hlen]; omega)
  have h2A : h - 8 ≤ rowsA.length := by rw [hlenA, hlen]
  have hstep := processDay_two h (h - 8) d evs rowsA rowA e1 e2 [] prevA hact hr1 h2A hprevA
  have h2B : h - 8 ≤ (rowsA.set (h - 8 - 1) (appendEnd prevA d e1)).length := by
    rw [List.length_set]; exact h2A
  obtain ⟨rowsC, rowC, heqC, hlenC, hframeC⟩ :=
    processDays_ok_frame h (h - 8) post (rowsA.set (h - 8 - 1) (appendEnd prevA d e1))
      (setCell rowA d (startText e2)) hr1 h2B
  refine ⟨rowsC ++ [rowC], ?_, ?_, ?_, ?_⟩
  · unfold layoutHour
    rw [processDays_append]
    simp only [heqA]
    simp only [processDays, hstep, heqC]
  · rw [List.length_append, hlenC, List.length_set, hlenA, hlen]
    simp only [List.length_singleton]
    omega
  · have hidx : h - 8 = rowsC.length := by
      rw [hlenC, List.length_set, hlenA, hlen]
    rw [hidx, List.get?_concat_length]
    obtain ⟨hcellC, _⟩ := hframeC d hpost
    simp only [Option.map_some']
    rw [hcellC]
    simp only [setCell, if_true]
    rfl
  · have hidx2 : h - 9 < rowsC.length := by
      rw [hlenC, List.length_set, hlenA, hlen]; omega
    rw [List.get?_append hidx2]
    obtain ⟨_, hviewC⟩ := hframeC d hpost
    have h99 : h - 9 = h - 8 - 1 := by omega
    rw [h99]
    rw [hviewC (h - 8 - 1)]
    rw [List.get?_set_eq_of_lt _ (by rw [hlenA, hlen]; omega)]
    simp only [Option.map_some', appendEnd, if_true]
    obtain ⟨prev0, hprev0⟩ := get?_is_some_of_lt rows (h - 8 - 1) (by omega)
    have h5 := hframeA d hpre
    have h6 := h5.2 (h - 8 - 1)
    rw [hprevA, hprev0] at h6
    simp only [Option.map_some'] at h6
    rw [hprev0]
    simp only [Option.map_some']
    have h7 : prevA.cells d = prev0.cells d := Option.some.inj h6
    rw [h7]
    rfl

/-- Event A of the same-slot scenario: 10:00-11:00. -/
def evA : Event := ⟨⟨2024, 3, 4, 10, 0, 0⟩, ⟨2024, 3, 4, 11, 0, 0⟩, "A1", "a"⟩

/-- Event B of the same-slot scenario: 11:00-12:00. -/
def evB : Event := ⟨⟨2024, 3, 4, 11, 0, 0⟩, ⟨2024, 3, 4, 12, 0, 0⟩, "B1", "b"⟩

/-- Witness for C1: events A (10:00-11:00) and B (11:00-12:00) on a Monday,
processed at hour 11 with three rows already computed. -/
theorem c1_same_slot_transition_witness :
    ∃ rows2,
      layoutHour ([] ++ ("Monday", [evA, evB]) :: []) 11 (11 - 8)
          (List.replicate 3 (initRow 8)) = .ok rows2 ∧
      rows2.length = 11 - 7 ∧
      (rows2.get? (11 - 8)).map (fun row => row.cells "Monday") =
        some ("--" ++ hourify evB.start ++ "--------" ++ "\n    " ++ evB.course) ∧
      (rows2.get? (11 - 9)).map (fun row => row.cells "Monday") =
        ((List.replicate 3 (initRow 8)).get? (11 - 9)).map
          (fun row => row.cells "Monday" ++ "\n\n\n" ++
            ("--------" ++ hourify evA.«end» ++ "--")) :=
  c1_same_slot_transition [] [] "Monday" [evA, evB] evA evB 11
    (List.replicate 3 (initRow 8)) (by omega) (by omega) rfl (by decide)
    rfl rfl rfl rfl (by decide) (by simp) (by simp)

theorem event_start_at_iff (e : Event) (hour : Nat) (hm : e.start.minute ≤ 59) :
    event_start_at e hour = true ↔ (e.start.hour = hour ∧ e.start.minute = 0) := by
  unfold event_start_at
  rw [beq_iff_eq]
  omega

theorem event_end_at_iff (e : Event) (hour : Nat) (hm : e.«end».minute ≤ 59) :
    event_end_at e hour = true ↔ (e.«end».hour = hour ∧ e.«end».minute = 0) := by
  unfold event_end_at
  rw [beq_iff_eq]
  omega

/-- The P4 scenario event: 09:00-10:00, course CS101. -/
def evP4 : Event := ⟨⟨2024, 3, 4, 9, 0, 0⟩, ⟨2024, 3, 4, 10, 0, 0⟩, "CS101", "Intro to Systems"⟩

/-- A week with only the P4 event, on Monday. -/
def weekP4 : List (String × List Event) :=
  [("Monday", [evP4]), ("Tuesday", []), ("Wednesday", []),
   ("Thursday", []), ("Friday", [])]

/-- C2: for every hour with exactly one active event (active means
`start.hour <= h <= end.hour`), the computed cell is a start marker (formatted
start time and course code) when the start is minute-aligned to the top of the
hour, otherwise an end marker (formatted end time) when the end is
minute-aligned, otherwise a continuation marker; with no active event the
cell is blank.  In particular, for a single event 09:00-10:00 the final grid
has a blank at hour 8, a start marker `09:00` with the course code at hour 9
and an end marker `10:00` at hour 10. -/
theorem c2_single_event_cells :
    (∀ (evs : List Event) (hour : Nat) (e : Event),
      8 ≤ hour → hour ≤ 17 →
      e.start.minute ≤ 59 → e.«end».minute ≤ 59 →
      eventsAtTime evs hour = [e] →
      hourCell (eventsAtTime evs hour) hour =
        (if e.start.hour = hour ∧ e.start.minute = 0 then
          "--" ++ hourify e.start ++ "--------" ++ "\n    " ++ e.course
        else if e.«end».hour = hour ∧ e.«end».minute = 0 then
          "--------" ++ hourify e.«end» ++ "--"
        else "  ")) ∧
    (∀ (evs : List Event) (hour : Nat),
      eventsAtTime evs hour = [] → hourCell (eventsAtTime evs hour) hour = " ") ∧
    (gridCell (buildRows weekP4) 0 "Monday" = some " " ∧
      gridCell (buildRows weekP4) 1 "Monday" =
        some ("--09:00--------" ++ "\n    CS101") ∧
      gridCell (buildRows weekP4) 2 "Monday" = some "--------10:00--") := by
  refine ⟨?_, ?_, ?_, ?_, ?_⟩
  · intro evs hour e _ _ hm1 hm2 hEq
    rw [hEq, hourCell_one]
    have hs := event_start_at_iff e hour hm1
    have he := event_end_at_iff e hour hm2
    by_cases h1 : e.start.hour = hour ∧ e.start.minute = 0
    · rw [if_pos (hs.mpr h1), if_pos h1]
      rfl
    · rw [if_neg (fun hb => h1 (hs.mp hb)), if_neg h1]
      by_cases h2 : e.«end».hour = hour ∧ e.«end».minute = 0
      · rw [if_pos (he.mpr h2), if_pos h2]
        rfl
      · rw [if_neg (fun hb => h2 (he.mp hb)), if_neg h2]
  · intro evs hour hEq
    rw [hEq]
    rfl
  · decide
  · decide
  · decide

/-- Witness for C2 at hour 9 with the single P4 event active. -/
theorem c2_single_event_cells_witness :
    eventsAtTime [evP4] 9 = [evP4] ∧
      hourCell (eventsAtTime [evP4] 9) 9 =
        (if evP4.start.hour = 9 ∧ evP4.start.minute = 0 then
          "--" ++ hourify evP4.start ++ "--------" ++ "\n    " ++ evP4.course
        else if evP4.«end».hour = 9 ∧ evP4.«end».minute = 0 then
          "--------" ++ hourify evP4.«end» ++ "--"
        else "  ") :=
  ⟨by decide,
    c2_single_event_cells.1 [evP4] 9 evP4 (by omega) (by omega)
      (by decide) (by decide) (by decide)⟩

/-- C10: when the two-or-more-active-events case fires at an hour `h > 8` for
day `d`, the retroactive amendment modifies only the cell `(d, h - 1)`: the
rows list keeps its length, every row other than row `r - 1` is unchanged,
and in row `r - 1` the time label and every other day's cell are unchanged;
only day `d`'s cell gains the appended end marker. -/
theorem c10_amend_only_prev_cell
    (hour r : Nat) (day : String) (evs : List Event)
    (rows : List Row) (row : Row) (e0 e1 : Event) (rest : List Event)
    (hh9 : 9 ≤ hour) (hh17 : hour ≤ 17) (hr : r = hour - 8)
    (hlen : rows.length = r)
    (hact : eventsAtTime evs hour = e0 :: e1 :: rest) :
    ∃ prev, rows.get? (r - 1) = some prev ∧
      processDay hour r day evs rows row =
        .ok (rows.set (r - 1) (appendEnd prev day e0), setCell row day (startText e1)) ∧
      (rows.set (r - 1) (appendEnd prev day e0)).length = rows.length ∧
      (∀ i, i ≠ r - 1 → (rows.set (r - 1) (appendEnd prev day e0)).get? i = rows.get? i) ∧
      (∀ d2, d2 ≠ day → (appendEnd prev day e0).cells d2 = prev.cells d2) ∧
      (appendEnd prev day e0).time = prev.time ∧
      (appendEnd prev day e0).cells day =
        prev.cells day ++ "\n\n\n" ++ ("--------" ++ hourify e0.«end» ++ "--") := by
  have hr1 : 1 ≤ r := by omega
  obtain ⟨prev, hprev⟩ := get?_is_some_of_lt rows (r - 1) (by omega)
  refine ⟨prev, hprev,
    processDay_two hour r day evs rows row e0 e1 rest prev hact hr1 (by omega) hprev,
    List.length_set _ _ _, ?_, ?_, rfl, ?_⟩
  · intro i hi
    exact List.get?_set_ne _ _ (fun hx => hi hx.symm)
  · intro d2 hd2
    simp only [appendEnd]
    rw [if_neg hd2]
  · simp only [appendEnd, if_true]
    rfl

/-- Witness for C10 with events A and B at hour 11 and three computed rows. -/
theorem c10_amend_only_prev_cell_witness :
    ∃ prev, (List.replicate 3 (initRow 8)).get? (3 - 1) = some prev ∧
      processDay 11 3 "Monday" [evA, evB] (List.replicate 3 (initRow 8)) (initRow 11) =
        .ok ((List.replicate 3 (initRow 8)).set (3 - 1) (appendEnd prev "Monday" evA),
          setCell (initRow 11) "Monday" (startText evB)) ∧
      ((List.replicate 3 (initRow 8)).set (3 - 1) (appendEnd prev "Monday" evA)).length =
        (List.replicate 3 (initRow 8)).length ∧
      (∀ i, i ≠ 3 - 1 →
        ((List.replicate 3 (initRow 8)).set (3 - 1) (appendEnd prev "Monday" evA)).get? i =
          (List.replicate 3 (initRow 8)).get? i) ∧
      (∀ d2, d2 ≠ "Monday" → (appendEnd prev "Monday" evA).cells d2 = prev.cells d2) ∧
      (appendEnd prev "Monday" evA).time = prev.time ∧
      (appendEnd prev "Monday" evA).cells "Monday" =
        prev.cells "Monday" ++ "\n\n\n" ++ ("--------" ++ hourify evA.«end» ++ "--") :=
  c10_amend_only_prev_cell 11 3 "Monday" [evA, evB] (List.replicate 3 (initRow 8))
    (initRow 11) evA evB [] (by omega) (by omega) rfl rfl (by decide)

theorem processDays_err_at_zero (hour : Nat) (entries : List (String × List Event))
    (row : Row) (d : String) (evs : List Event) (e0 e1 : Event) (rest : List Event)
    (hmem : (d, evs) ∈ entries) (hact : eventsAtTime evs hour = e0 :: e1 :: rest) :
    processDays hour 0 entries [] row = .error .indexError := by
  induction entries generalizing row with
  | nil => cases hmem
  | cons p tail ih =>
    obtain ⟨day0, evs0⟩ := p
    rcases hc : eventsAtTime evs0 hour with _ | ⟨f0, _ | ⟨f1, frest⟩⟩
    · rcases List.mem_cons.mp hmem with heq | hmem2
      · rw [Prod.mk.injEq] at heq
        obtain ⟨rfl, rfl⟩ := heq
        rw [hc] at hact
        exact absurd hact (by simp)
      · simp only [processDays, processDay, hc]
        exact ih _ hmem2
    · rcases List.mem_cons.mp hmem with heq | hmem2
      · rw [Prod.mk.injEq] at heq
        obtain ⟨rfl, rfl⟩ := heq
        rw [hc] at hact
        exact absurd hact (by simp)
      · simp only [processDays, processDay, hc]
        exact ih _ hmem2
    · simp only [processDays, processDay, hc, amendPrev_empty]

/-- C9: if exactly two events are active at hour 8 (the first grid row) on
some day, the layout fails with the out-of-range `IndexError` of the
`rows[r-1]` access on the still-empty rows list; the whole grid computation
aborts, so no end marker is written into any row. -/
theorem c9_first_row_overlap_index_error
    (weekEvents : List (String × List Event)) (d : String) (evs : List Event)
    (e0 e1 : Event) (hmem : (d, evs) ∈ weekEvents)
    (hact : eventsAtTime evs 8 = [e0, e1]) :
    buildRows weekEvents = .error .indexError := by
  have herr : layoutHour weekEvents 8 0 [] = .error .indexError := by
    unfold layoutHour
    rw [processDays_err_at_zero 8 weekEvents (initRow 8) d evs e0 e1 [] hmem hact]
  unfold buildRows
  have hrange : List.range' 8 10 = 8 :: List.range' 9 9 := rfl
  rw [hrange]
  simp only [layoutHours, herr]

/-- The first event of the hour-8 overlap scenario: 07:00-08:00. -/
def evH8a : Event := ⟨⟨2024, 3, 4, 7, 0, 0⟩, ⟨2024, 3, 4, 8, 0, 0⟩, "H1", "x"⟩

/-- The second event of the hour-8 overlap scenario: 08:00-09:00. -/
def evH8b : Event := ⟨⟨2024, 3, 4, 8, 0, 0⟩, ⟨2024, 3, 4, 9, 0, 0⟩, "H2", "y"⟩

/-- Witness for C9: a Monday with events 07:00-08:00 and 08:00-09:00, both
active at hour 8. -/
theorem c9_first_row_overlap_index_error_witness :
    buildRows [("Monday", [evH8a, evH8b])] = .error .indexError :=
  c9_first_row_overlap_index_error [("Monday", [evH8a, evH8b])] "Monday"
    [evH8a, evH8b] evH8a evH8b (by decide) (by decide)

/-- Counterexample refuting C3 as stated: `99991231T230000Z` is a field value
in the `YYYYMMDDTHHMMSSZ` format denoting the valid datetime
9999-12-31 23:00:00, but the hard-coded +1 hour correction overflows
`datetime.max`, so the source's `dateify` raises OverflowError there
(modelled as `none`) instead of producing the denoted timestamp plus one
hour. -/
theorem c3_overflow_counterexample :
    ValidDT ⟨9999, 12, 31, 23, 0, 0⟩ ∧
    formatDT ⟨9999, 12, 31, 23, 0, 0⟩ = "99991231T230000Z".toList ∧
    dateify "99991231T230000Z".toList = none :=
  ⟨by decide, by decide, by decide⟩

/-- C3 (amended): every DTSTART/DTEND field value in the `YYYYMMDDTHHMMSSZ`
format denoting a valid datetime outside the final calendar hour parses to
the timestamp denoted by the string plus exactly one hour (the hard-coded
timezone workaround); for values inside the final hour 9999-12-31 23:xx:xx
the +1 hour correction overflows `datetime.max` and raises OverflowError.
In particular `20240304T090000Z` yields 10:00 and `20240304T100000Z` yields
11:00. -/
theorem c3_dateify_adds_one_hour :
    (∀ dt : PyDateTime, ValidDT dt → ¬AtMaxBoundary dt →
      ∃ dt2, dateify (formatDT dt) = some dt2 ∧ toSec dt2 = toSec dt + 3600) ∧
    (∀ dt : PyDateTime, ValidDT dt → AtMaxBoundary dt →
      dateify (formatDT dt) = none) ∧
    (dateify "20240304T090000Z".toList).map (fun d => (d.hour, d.minute)) =
      some (10, 0) ∧
    (dateify "20240304T100000Z".toList).map (fun d => (d.hour, d.minute)) =
      some (11, 0) := by
  refine ⟨?_, ?_, by decide, by decide⟩
  · intro dt h hb
    obtain ⟨dt2, h2, h3⟩ := addHour_toSec dt h hb
    exact ⟨dt2, by rw [dateify_formatDT dt h, h2], h3⟩
  · intro dt h hb
    rw [dateify_formatDT dt h, addHour_at_max dt hb]

/-- Witness for the amended C3 at 2024-03-04 09:00:00 (regular case) and
9999-12-31 23:00:00 (overflow case). -/
theorem c3_dateify_adds_one_hour_witness :
    (∃ dt2, dateify (formatDT ⟨2024, 3, 4, 9, 0, 0⟩) = some dt2 ∧
      toSec dt2 = toSec ⟨2024, 3, 4, 9, 0, 0⟩ + 3600) ∧
    dateify (formatDT ⟨9999, 12, 31, 23, 0, 0⟩) = none :=
  ⟨c3_dateify_adds_one_hour.1 ⟨2024, 3, 4, 9, 0, 0⟩ (by decide) (by decide),
   c3_dateify_adds_one_hour.2.1 ⟨9999, 12, 31, 23, 0, 0⟩ (by decide) (by decide)⟩

theorem WEEKDAY_some_of_range (n : Nat) (h1 : 1 ≤ n) (h2 : n ≤ 5) :
    ∃ s, WEEKDAY n = some s := by
  unfold WEEKDAY
  split_ifs <;> first
  | exact ⟨_, rfl⟩
  | omega

theorem isoWeekday_pos (dt : PyDateTime) : 1 ≤ isoWeekday dt := by
  show 1 ≤ (if ymd2ord dt.year dt.month dt.day % 7 = 0 then 7
    else ymd2ord dt.year dt.month dt.day % 7)
  split_ifs with h <;> omega

theorem events_of_day_ok (week : Nat) (day : String) (events : List Event)
    (hsafe : ∀ e ∈ events, 6 ≤ get_day e.start → get_week e.start ≠ week) :
    ∃ l, events_of_day week day events = .ok l ∧
      ∀ e ∈ l, get_day e.start ≤ 5 ∧ get_week e.start = week := by
  induction events with
  | nil => exact ⟨[], rfl, by simp⟩
  | cons e rest ih =>
    obtain ⟨l, hl, hmem⟩ := ih (fun x hx => hsafe x (List.mem_cons_of_mem _ hx))
    by_cases hw : get_week e.start = week
    · have h5 : get_day e.start ≤ 5 := by
        by_contra hgt
        push_neg at hgt
        exact hsafe e (List.mem_cons_self _ _) (by omega) hw
      obtain ⟨s, hs⟩ := WEEKDAY_some_of_range (get_day e.start) (isoWeekday_pos e.start) h5
      by_cases hd : s = day
      · refine ⟨e :: l, ?_, ?_⟩
        · simp only [events_of_day, if_pos hw, hs, if_pos hd, hl]
        · intro x hx
          rcases List.mem_cons.mp hx with rfl | hx2
          · exact ⟨h5, hw⟩
          · exact hmem x hx2
      · refine ⟨l, ?_, hmem⟩
        simp only [events_of_day, if_pos hw, hs, if_neg hd, hl]
    · refine ⟨l, ?_, hmem⟩
      simp only [events_of_day, if_neg hw, hl]

theorem parseWeekAux_ok (events : List Event) (week : Nat) (labels : List String)
    (hsafe : ∀ e ∈ events, 6 ≤ get_day e.start → get_week e.start ≠ week) :
    ∃ buckets, parseWeekAux events week labels = .ok buckets ∧
      buckets.length = labels.length ∧
      ∀ p ∈ buckets, ∀ e ∈ p.2, get_day e.start ≤ 5 ∧ get_week e.start = week := by
  induction labels with
  | nil => exact ⟨[], rfl, rfl, by simp⟩
  | cons d ds ih =>
    obtain ⟨l, hl, hmem⟩ := events_of_day_ok week d events hsafe
    obtain ⟨bs, hbs, hlen, hbmem⟩ := ih
    refine ⟨(d, l) :: bs, ?_, ?_, ?_⟩
    · simp only [parseWeekAux, hl, hbs]
    · simp [hlen]
    · intro p hp
      rcases List.mem_cons.mp hp with rfl | hp2
      · exact hmem
      · exact hbmem p hp2

instance {ε α : Type} [DecidableEq ε] [DecidableEq α] :
    DecidableEq (Except ε α) := fun a b =>
  match a, b with
  | .error x, .error y =>
    if h : x = y then isTrue (by rw [h])
    else isFalse (by intro hc; cases hc; exact h rfl)
  | .ok x, .ok y =>
    if h : x = y then isTrue (by rw [h])
    else isFalse (by intro hc; cases hc; exact h rfl)
  | .error _, .ok _ => isFalse (by intro hc; cases hc)
  | .ok _, .error _ => isFalse (by intro hc; cases hc)

/-- A Saturday event (2024-03-09 is ISO weekday 6, ISO week 10). -/
def evSat : Event := ⟨⟨2024, 3, 9, 10, 0, 0⟩, ⟨2024, 3, 9, 11, 0, 0⟩, "SAT", "s"⟩

/-- Counterexample refuting C4 as stated: a weekend event whose ISO week
equals the target week makes the bucketer raise KeyError (the `WEEKDAY[6]`
lookup) instead of silently excluding it and returning a mapping. -/
theorem c4_weekend_keyerror_counterexample :
    get_day evSat.start = 6 ∧ get_week evSat.start = 10 ∧
      parse_week [evSat] 10 = .error .keyError :=
  ⟨by decide, by decide, by decide⟩

/-- C4 (amended): the bucketer silently excludes weekend events only when
their ISO week differs from the target (the week test short-circuits the
`WEEKDAY` lookup); under that condition it returns the five buckets, weekend
events never appear in any bucket, and every bucketed event is in the target
week.  A weekend event inside the target week instead raises KeyError. -/
theorem c4_weekend_excluded_amended (events : List Event) (week : Nat)
    (hsafe : ∀ e ∈ events, 6 ≤ get_day e.start → get_week e.start ≠ week) :
    ∃ buckets, parse_week events week = .ok buckets ∧
      buckets.length = 5 ∧
      ∀ p ∈ buckets, ∀ e ∈ p.2, get_day e.start ≤ 5 ∧ get_week e.start = week := by
  obtain ⟨buckets, hb, hlen, hmem⟩ := parseWeekAux_ok events week weekdayLabels hsafe
  exact ⟨buckets, hb, by rw [hlen]; rfl, hmem⟩

/-- A Sunday event of ISO week 11 (2024-03-17). -/
def evSun : Event := ⟨⟨2024, 3, 17, 10, 0, 0⟩, ⟨2024, 3, 17, 11, 0, 0⟩, "SUN", "t"⟩

/-- Witness for the amended C4: a Sunday event of a different week together
with a Monday event of the target week 10. -/
theorem c4_weekend_excluded_amended_witness :
    ∃ buckets, parse_week [evSun, evA] 10 = .ok buckets ∧
      buckets.length = 5 ∧
      ∀ p ∈ buckets, ∀ e ∈ p.2, get_day e.start ≤ 5 ∧ get_week e.start = 10 :=
  c4_weekend_excluded_amended [evSun, evA] 10 (by decide)

theorem findSub_at_first (c d : List Char) (x : Char) (hc : ∀ y ∈ c, y ≠ x) :
    findSub (c ++ x :: d) [x] = some c.length := by
  induction c with
  | nil =>
    simp only [List.nil_append, findSub]
    rw [if_pos]
    · rfl
    · show leadsWith [x] (x :: d) = true
      simp [leadsWith]
  | cons y ys ih =>
    have hy : y ≠ x := hc y (List.mem_cons_self _ _)
    simp only [List.cons_append, findSub]
    rw [if_neg ?hneg]
    case hneg =>
      show ¬leadsWith [x] (y :: (ys ++ x :: d)) = true
      simp only [leadsWith, Bool.and_eq_true, beq_iff_eq]
      intro hcontra
      exact hy hcontra.1.symm
    simp only [List.append_eq]
    rw [ih (fun z hz => hc z (List.mem_cons_of_mem _ hz))]
    rfl

theorem splitCourse_eq (c d : List Char) (hc : ∀ y ∈ c, y ≠ '\\') :
    splitCourse (c ++ '\\' :: d) = some (c, d) := by
  unfold splitCourse
  simp only [findSub_at_first c d '\\' hc]
  have ht : (c ++ '\\' :: d).take c.length = c := List.take_left c _
  have hd2 : (c ++ '\\' :: d).drop (c.length + 1) = d := by
    rw [show c ++ '\\' :: d = (c ++ ['\\']) ++ d by simp,
      show c.length + 1 = (c ++ ['\\']).length by simp]
    exact List.drop_left _ _
  rw [ht, hd2]

theorem replaceFuel_no_pat_char (x : Char) (rep : List Char) (hrep : x ∉ rep) :
    ∀ (fuel : Nat) (s : List Char), s.length ≤ fuel →
      x ∉ replaceFuel fuel s [x] rep := by
  intro fuel
  induction fuel with
  | zero =>
    intro s hs
    have hnil : s = [] := List.eq_nil_of_length_eq_zero (by omega)
    subst hnil
    simp [replaceFuel]
  | succ n ih =>
    intro s hs
    cases s with
    | nil => simp [replaceFuel]
    | cons ch t =>
      by_cases hpre : leadsWith [x] (ch :: t) = true
      · simp only [replaceFuel]
        rw [if_pos hpre]
        intro hmem
        rcases List.mem_append.mp hmem with h1 | h2
        · exact hrep h1
        · have ht : t.length ≤ n := by
            simp only [List.length_cons] at hs
            omega
          have hdrop : (ch :: t).drop (List.length [x]) = t := by simp
          rw [hdrop] at h2
          exact ih t ht h2
      · simp only [replaceFuel]
        rw [if_neg hpre]
        intro hmem
        rcases List.mem_cons.mp hmem with rfl | h2
        · apply hpre
          simp [leadsWith]
        · have ht : t.length ≤ n := by
            simp only [List.length_cons] at hs
            omega
          exact ih t ht h2

theorem replaceFuel_subset_of_nilrep :
    ∀ (fuel : Nat) (s pat : List Char) (x : Char),
      x ∈ replaceFuel fuel s pat [] → x ∈ s := by
  intro fuel
  induction fuel with
  | zero =>
    intro s pat x h
    simpa [replaceFuel] using h
  | succ n ih =>
    intro s pat x h
    cases s with
    | nil => simpa [replaceFuel] using h
    | cons ch t =>
      by_cases hpre : leadsWith pat (ch :: t) = true
      · simp only [replaceFuel] at h
        rw [if_pos hpre] at h
        simp only [List.nil_append] at h
        exact List.drop_subset _ _ (ih _ pat x h)
      · simp only [replaceFuel] at h
        rw [if_neg hpre] at h
        rcases List.mem_cons.mp h with rfl | h2
        · exact List.mem_cons_self _ _
        · exact List.mem_cons_of_mem _ (ih t pat x h2)

theorem cleanSummary_clean (d : List Char) :
    (∀ x ∈ cleanSummary d, x ≠ ',') ∧ (∀ x ∈ cleanSummary d, x ≠ '\\') := by
  unfold cleanSummary pyReplace
  constructor
  · intro x hx hcomma
    subst hcomma
    have h2 := replaceFuel_subset_of_nilrep _ _ _ _ hx
    exact replaceFuel_no_pat_char ',' [] (by simp) _ _ (le_refl _) h2
  · intro x hx hbs
    subst hbs
    have h2 := replaceFuel_subset_of_nilrep _ _ _ _ hx
    have h3 := replaceFuel_subset_of_nilrep _ _ _ _ h2
    exact replaceFuel_no_pat_char '\\' (" - ".toList) (by decide) _ _ (le_refl _) h3

/-- The feed exercising the summary processing: split at the first backslash,
backslash replacement, comma stripping, line-folding removal, and the
SUMMARY value running up to (not including) LOCATION. -/
def feedB : String :=
  "BEGIN:VEVENT\nDTSTART:20240304T090000Z\nDTEND:20240304T100000Z\nSUMMARY:MA101\\Calc\\II, advanced\n continuedLOCATION:R1\nEND:VEVENT\n"

set_option maxRecDepth 8000 in
/-- C5: the raw SUMMARY value (up to but not including LOCATION) is split
once at the first backslash into course code and description; in the
description every remaining backslash becomes " - ", every comma is removed
and every newline-plus-space (line-folding) sequence is removed, each by one
left-to-right replacement pass in that order; consequently the resulting
summary contains no comma and no backslash.  The concrete feed confirms the
whole pipeline. -/
theorem c5_summary_processing :
    (∀ c d : List Char, (∀ y ∈ c, y ≠ '\\') →
      splitCourse (c ++ '\\' :: d) = some (c, d)) ∧
    (∀ d : List Char, cleanSummary d =
      pyReplace (pyReplace (pyReplace d ['\\'] (" - ".toList)) [','] [])
        ['\n', ' '] []) ∧
    (∀ d : List Char, ∀ x ∈ cleanSummary d, x ≠ ',' ∧ x ≠ '\\') ∧
    parseEvents feedB = .ok [⟨⟨2024, 3, 4, 10, 0, 0⟩, ⟨2024, 3, 4, 11, 0, 0⟩,
      "MA101", "Calc - II advancedcontinued"⟩] := by
  refine ⟨fun c d hc => splitCourse_eq c d hc, fun d => rfl, ?_, by decide⟩
  intro d x hx
  obtain ⟨h1, h2⟩ := cleanSummary_clean d
  exact ⟨h1 x hx, h2 x hx⟩

/-- Witness for C5: a concrete split and a concrete clean-summary character. -/
theorem c5_summary_processing_witness :
    splitCourse ("MA101".toList ++ '\\' :: "Calc".toList) =
      some ("MA101".toList, "Calc".toList) ∧
    ('a' ≠ ',' ∧ 'a' ≠ '\\') :=
  ⟨c5_summary_processing.1 "MA101".toList "Calc".toList (by decide),
   c5_summary_processing.2.2.1 "ab".toList 'a' (by decide)⟩

theorem parse_ics_ok (data : String) (fs : Option String) (evs : List Event)
    (h : (parse_ics (some data) fs).1 = .ok evs) :
    parseEvents data = .ok evs := by
  unfold parse_ics at h
  dsimp only at h
  cases hp : parseEvents data with
  | error e =>
    rw [hp] at h
    simp at h
  | ok l =>
    rw [hp] at h
    cases fs with
    | none => simp at h
    | some c =>
      simp at h
      rw [h]

theorem parseEvents_ok_sorted (data : String) (evs : List Event)
    (h : parseEvents data = .ok evs) : List.Sorted eventLe evs := by
  unfold parseEvents at h
  cases hp : parseAll (extractBlocks data.toList) with
  | error e =>
    rw [hp] at h
    exact absurd h (by simp)
  | ok l =>
    rw [hp] at h
    simp only [Except.ok.injEq] at h
    rw [← h]
    exact List.sorted_insertionSort eventLe l

/-- C6: whenever `parse_ics` returns an event sequence, it is sorted
non-decreasingly by start timestamp; and a feed containing zero VEVENT
blocks yields the empty sequence rather than an error (given the temp raw
file exists, as in every normal run). -/
theorem c6_sorted_and_empty :
    (∀ (data : String) (fs : Option String) (evs : List Event),
      (parse_ics (some data) fs).1 = .ok evs → List.Sorted eventLe evs) ∧
    (∀ data c : String, extractBlocks data.toList = [] →
      (parse_ics (some data) (some c)).1 = .ok []) := by
  constructor
  · intro data fs evs h
    exact parseEvents_ok_sorted data evs (parse_ics_ok data fs evs h)
  · intro data c hblocks
    have hpe : parseEvents data = .ok [] := by
      unfold parseEvents
      rw [hblocks]
      rfl
    unfold parse_ics
    dsimp only
    rw [hpe]

/-- The reference feed with a single well-formed VEVENT block. -/
def feedA : String :=
  "BEGIN:VEVENT\nDTSTART:20240304T090000Z\nDTEND:20240304T100000Z\nSUMMARY:CS101\\Intro to Systems\nLOCATION:Room 1\nEND:VEVENT"

/-- The event parsed from `feedA` (note the +1h correction and the trailing
newline the SUMMARY capture keeps before LOCATION). -/
def evFeedA : Event :=
  ⟨⟨2024, 3, 4, 10, 0, 0⟩, ⟨2024, 3, 4, 11, 0, 0⟩, "CS101", "Intro to Systems\n"⟩

set_option maxRecDepth 8000 in
/-- Witness for C6: the parsed single-event feed is sorted, and a blockless
feed parses to the empty sequence. -/
theorem c6_sorted_and_empty_witness :
    List.Sorted eventLe [evFeedA] ∧ (parse_ics (some "hello") (some "x")).1 = .ok [] :=
  ⟨c6_sorted_and_empty.1 feedA (some "raw") [evFeedA] (by decide),
   c6_sorted_and_empty.2 "hello" "x" (by decide)⟩

theorem parseAll_error (bs : List (List Char)) (b : List Char) (e : PyErr)
    (hmem : b ∈ bs) (herr : parseBlock b = .error e) :
    ∃ e2, parseAll bs = .error e2 := by
  induction bs with
  | nil => cases hmem
  | cons b0 rest ih =>
    cases hpb : parseBlock b0 with
    | error e0 => exact ⟨e0, by simp only [parseAll, hpb]⟩
    | ok ev =>
      rcases List.mem_cons.mp hmem with rfl | hmem2
      · rw [herr] at hpb
        cases hpb
      · obtain ⟨e2, he2⟩ := ih hmem2
        exact ⟨e2, by simp only [parseAll, hpb, he2]⟩

/-- C7: a VEVENT block lacking a required field (start, end, or summary) makes
the per-block extraction raise AttributeError, and any feed containing such a
block fails as a whole: `parse_ics` returns an error and no partial event
sequence, whatever the state of the temp raw file. -/
theorem c7_missing_field_aborts (block : List Char)
    (hmiss : getField block dtstartKey = none ∨ getField block dtendKey = none ∨
      summaryRaw block = none) :
    parseBlock block = .error .attributeError ∧
    ∀ (data : String) (fs : Option String), block ∈ extractBlocks data.toList →
      ∃ e, (parse_ics (some data) fs).1 = .error e := by
  have hpb : parseBlock block = .error .attributeError := by
    rcases hmiss with h1 | h2 | h3
    · simp only [parseBlock, h1]
    · cases hg : getField block dtstartKey with
      | none => simp only [parseBlock, hg]
      | some v => simp only [parseBlock, hg, h2]
    · cases hg : getField block dtstartKey with
      | none => simp only [parseBlock, hg]
      | some v =>
        cases hg2 : getField block dtendKey with
        | none => simp only [parseBlock, hg, hg2]
        | some v2 => simp only [parseBlock, hg, hg2, h3]
  refine ⟨hpb, ?_⟩
  intro data fs hmem
  obtain ⟨e2, he2⟩ := parseAll_error (extractBlocks data.toList) block _ hmem hpb
  have hpe : parseEvents data = .error e2 := by
    unfold parseEvents
    rw [he2]
  refine ⟨e2, ?_⟩
  unfold parse_ics
  dsimp only
  rw [hpe]

/-- A feed whose single block lacks the DTEND field. -/
def feedC : String :=
  "BEGIN:VEVENT\nDTSTART:20240304T090000Z\nSUMMARY:A\\B LOCATION:x\nEND:VEVENT"

/-- The block extracted from `feedC`. -/
def blockC : List Char :=
  "DTSTART:20240304T090000Z\nSUMMARY:A\\B LOCATION:x\n".toList

set_option maxRecDepth 8000 in
/-- Witness for C7: the DTEND-less block aborts the whole parse of `feedC`. -/
theorem c7_missing_field_aborts_witness :
    parseBlock blockC = .error PyErr.attributeError ∧
      ∃ e, (parse_ics (some feedC) (some "raw")).1 = .error e :=
  have h := c7_missing_field_aborts blockC (Or.inr (Or.inl (by decide)))
  ⟨h.1, h.2 feedC (some "raw") (by decide)⟩

set_option maxRecDepth 8000 in
/-- Counterexample refuting C8 as stated: parsing the same feed text twice in
succession does not yield identical results.  The first invocation succeeds
and deletes the temp raw file (the hidden mutable state); the second then
raises FileNotFoundError in `delete_temp_raw_file`. -/
theorem c8_reparse_differs_counterexample :
    (parse_ics (some feedA) (some feedA)).1 = .ok [evFeedA] ∧
    (parse_ics (some feedA) ((parse_ics (some feedA) (some feedA)).2)).1 =
      .error .fileNotFoundError ∧
    (parse_ics (some feedA) (some feedA)).1 ≠
      (parse_ics (some feedA) ((parse_ics (some feedA) (some feedA)).2)).1 :=
  ⟨by decide, by decide, by decide⟩

/-- C8 (amended): the parse result is a function of the feed text alone
whenever the temporary raw file exists at the start of the invocation
(regardless of its content), so two invocations each starting with the file
present yield identical Event sequences; but a successful parse deletes the
file, so a second invocation without restoring it fails with
FileNotFoundError. -/
theorem c8_parse_deterministic_amended (text c1 c2 : String) :
    (parse_ics (some text) (some c1)).1 = (parse_ics (some text) (some c2)).1 ∧
    (∀ evs, (parse_ics (some text) (some c1)).1 = .ok evs →
      (parse_ics (some text) ((parse_ics (some text) (some c1)).2)).1 =
        .error .fileNotFoundError) := by
  constructor
  · unfold parse_ics
    dsimp only
    cases parseEvents text with
    | error e => rfl
    | ok l => rfl
  · intro evs hok
    cases hp : parseEvents text with
    | error e =>
      exfalso
      unfold parse_ics at hok
      dsimp only at hok
      rw [hp] at hok
      simp at hok
    | ok l =>
      have hstate : (parse_ics (some text) (some c1)).2 = none := by
        unfold parse_ics
        dsimp only
        rw [hp]
      rw [hstate]
      unfold parse_ics
      dsimp only
      rw [hp]

set_option maxRecDepth 8000 in
/-- Witness for the amended C8 on the concrete single-event feed. -/
theorem c8_parse_deterministic_amended_witness :
    (parse_ics (some feedA) (some "p")).1 = (parse_ics (some feedA) (some "q")).1 ∧
    (parse_ics (some feedA) ((parse_ics (some feedA) (some "p")).2)).1 =
      .error .fileNotFoundError :=
  ⟨(c8_parse_deterministic_amended feedA "p" "q").1,
   (c8_parse_deterministic_amended feedA "p" "q").2 [evFeedA] (by decide)⟩
